import Mathlib

/-!
Verification of the OpenBeta parquet exporter (`export.py`).

The Python source is shallowly embedded: network responses are explicit
values handed to the functions through transport environments, dictionaries
become structures, Python exceptions become `Except Unit`, and the
`while True` pagination loop and the unbounded splitter recursion take a
fuel argument (`none` = the loop would still be running after `fuel`
iterations).  Python truthiness of the values the code branches on is
modelled exactly: an empty token list, a missing latitude and a zero
latitude are all falsy, as is an absent or empty uuid string.
-/

namespace OpenBetaExport

/-- `AREAS_PAGE_SIZE = 500`, the page size used by the pagination loop. -/
def AREAS_PAGE_SIZE : Nat := 500

/-- `LARGE_REGIONS = {"USA", "Canada"}`, the allow-list of known
oversized regions. -/
def LARGE_REGIONS : List String := ["USA", "Canada"]

/-- The `metadata {lat lng}` object of an area or climb; `none` models a
missing key or JSON `null`. -/
structure Metadata where
  lat : Option Int
  lng : Option Int
  deriving DecidableEq, Repr

/-- A climb record as returned by `AREAS_QUERY` (fields the exporter never
reads are omitted); `pathTokens = []` models a missing/null/empty list. -/
structure Climb where
  uuid : String
  name : String
  pathTokens : List String
  metadata : Metadata
  deriving DecidableEq, Repr

/-- A leaf area as returned by `AREAS_QUERY`. -/
structure Area where
  uuid : String
  areaName : String
  pathTokens : List String
  metadata : Metadata
  climbs : List Climb
  deriving DecidableEq, Repr

/-- Outcome of one `requests.post` of `AREAS_QUERY`: a timeout, some other
raised exception (connection error, bad JSON, ...), or an HTTP response
carrying a status code, whether the body has a `"errors"` key, and the
decoded `data.areas` list. -/
inductive Resp where
  | timeout
  | exn
  | http (status : Nat) (errs : Bool) (areas : List Area)
  deriving DecidableEq, Repr

/-- Outcome of one of the child-discovery posts (`CHILDREN_BY_UUID_QUERY`
or `CHILDREN_BY_PATH_QUERY`), with payload `α`. -/
inductive SimpleResp (α : Type) where
  | exn
  | http (status : Nat) (errs : Bool) (payload : α)
  deriving DecidableEq, Repr

/-- The second component of `fetch_region_climbs`' result when it is not
`None`: an HTTP status code (timeouts are reported as `504`) or the string
`"GraphQL Error"`. -/
inductive FetchErr where
  | status (n : Nat)
  | gql
  deriving DecidableEq, Repr

/-- Result of `fetch_region_climbs`: `(climbs, None)` (with `warned = true`
when a later page failed and a warning was printed), `(None, err)`, or an
uncaught exception propagating out of the function. -/
inductive Outcome where
  | ok (climbs : List Climb) (warned : Bool)
  | tooLarge (e : FetchErr)
  | raised
  deriving DecidableEq, Repr

/-- Python truthiness of an optional numeric coordinate: `None` and `0`
are falsy. -/
def truthyCoord : Option Int → Bool
  | none => false
  | some v => v != 0

/-- Python truthiness of the optional `uuid` argument: `None` and the
empty string are falsy. -/
def truthyOptStr : Option String → Bool
  | none => false
  | some s => s != ""

/-- The per-climb enrichment performed inside the pagination loop:
`climb["pathTokens"] = area["pathTokens"]` when the climb's token list is
falsy, and the area's `lat`/`lng` overwrite the climb's when the climb's
`lat` is falsy and the area's `lat` is truthy. -/
def enrichClimb (area : Area) (c : Climb) : Climb :=
  let c1 := if c.pathTokens.isEmpty then { c with pathTokens := area.pathTokens } else c
  if truthyCoord c1.metadata.lat then c1
  else if truthyCoord area.metadata.lat then
    { c1 with metadata := { lat := area.metadata.lat, lng := area.metadata.lng } }
  else c1

/-- One area's contribution to `all_climbs`: its climbs, enriched, in
order. -/
def enrichArea (a : Area) : List Climb :=
  a.climbs.map (enrichClimb a)

/-- Flattening of one page (`for area in areas: for climb in area.climbs`). -/
def flattenEnrich : List Area → List Climb
  | [] => []
  | a :: rest => enrichArea a ++ flattenEnrich rest

/-- The `while True` pagination loop of `fetch_region_climbs`, with fuel.
`t off` is the response to the request at offset `off`; the returned list
of naturals records the offsets actually requested, in order. -/
def fetchPagesAux (t : Nat → Resp) : Nat → Nat → List Climb → Option (Outcome × List Nat)
  | 0, _, _ => none
  | fuel+1, off, acc =>
    match t off with
    | .timeout =>
      if off = 0 then some (.tooLarge (.status 504), [off])
      else some (.ok acc true, [off])
    | .exn => some (.raised, [off])
    | .http s errs areas =>
      if s ≠ 200 then
        if off = 0 then some (.tooLarge (.status s), [off])
        else some (.ok acc true, [off])
      else if errs then
        if off = 0 then some (.tooLarge .gql, [off])
        else some (.ok acc true, [off])
      else
        let acc2 := acc ++ flattenEnrich areas
        if areas.length < AREAS_PAGE_SIZE then some (.ok acc2 false, [off])
        else
          match fetchPagesAux t fuel (off + AREAS_PAGE_SIZE) acc2 with
          | none => none
          | some (out, lg) => some (out, off :: lg)

/-- `fetch_region_climbs(api_url, tokens)` with the transport for those
tokens already applied: starts at offset `0` with an empty accumulator. -/
def fetchRegionClimbs (t : Nat → Resp) (fuel : Nat) : Option (Outcome × List Nat) :=
  fetchPagesAux t fuel 0 []

/-- `fetch_children_by_uuid`: every failure (non-200, GraphQL errors, any
exception) is absorbed into an empty child list. -/
def fetchChildrenByUuid : SimpleResp (List String) → List String
  | .exn => []
  | .http s errs cs => if s ≠ 200 then [] else if errs then [] else cs

/-- `fetch_children_by_path`: the payload is the list of matched non-leaf
areas, each carrying its children's names; the code uses the first matched
area. Every failure is absorbed into an empty child list. -/
def fetchChildrenByPath : SimpleResp (List (List String)) → List String
  | .exn => []
  | .http s errs areas =>
    if s ≠ 200 then [] else if errs then []
    else match areas with
      | [] => []
      | a :: _ => a

/-- The three GraphQL transports the fetch functions draw their responses
from, keyed the way the Python code keys its requests. -/
structure Env where
  areasResp : List String → Nat → Resp
  childUuid : String → SimpleResp (List String)
  childPath : List String → SimpleResp (List (List String))

deriving instance DecidableEq for Except

/-- Result of `fetch_region`: either a propagated exception, or the climb
list together with the list of token paths for which a direct leaf-area
query (`AREAS_QUERY`) was issued somewhere in the subtree. -/
abbrev RegionRes := Except Unit (List Climb × List (List String))

/-- The `for child in children` loop shared by both split branches of
`fetch_region`: recurse into `tokens + [child]` (with no uuid) and
concatenate climbs (and request logs) in discovery order. -/
def splitChildren (recurse : List String → Option String → Option RegionRes)
    (toks : List String) : List String → Option RegionRes
  | [] => some (.ok ([], []))
  | c :: cs =>
    match recurse (toks ++ [c]) none with
    | none => none
    | some (.error e) => some (.error e)
    | some (.ok (cl, lg)) =>
      match splitChildren recurse toks cs with
      | none => none
      | some (.error e) => some (.error e)
      | some (.ok (cl2, lg2)) => some (.ok (cl ++ cl2, lg ++ lg2))

/-- The split taken after a first-page 502/504: discover children by uuid
when `uuid` is truthy, else by path; no children is a warning that
contributes zero climbs.  The direct-fetch attempt that triggered the
split is recorded at the head of the request log. -/
def splitOnError (recurse : List String → Option String → Option RegionRes)
    (env : Env) (toks : List String) (uuid : Option String) : Option RegionRes :=
  let children :=
    match uuid with
    | some u => if u != "" then fetchChildrenByUuid (env.childUuid u)
                else fetchChildrenByPath (env.childPath toks)
    | none => fetchChildrenByPath (env.childPath toks)
  if children.isEmpty then some (.ok ([], [toks]))
  else
    match splitChildren recurse toks children with
    | none => none
    | some (.error e) => some (.error e)
    | some (.ok (cl, lg)) => some (.ok (cl, toks :: lg))

/-- One unfolding of `fetch_region`, with the recursive call abstracted.
`tokens[-1]` on an empty list raises; a known large region with a truthy
uuid skips the direct fetch and splits immediately; otherwise the region
is fetched directly, errors `502`/`504` trigger a split, any other error
yields zero climbs, and an uncaught exception propagates. -/
def fetchRegionStep (recurse : List String → Option String → Option RegionRes)
    (env : Env) (pf : Nat) (toks : List String) (uuid : Option String) : Option RegionRes :=
  match toks with
  | [] => some (.error ())
  | t :: ts =>
    let lastTok := (t :: ts).getLast (List.cons_ne_nil t ts)
    if LARGE_REGIONS.contains lastTok && truthyOptStr uuid then
      let children :=
        match uuid with
        | some u => fetchChildrenByUuid (env.childUuid u)
        | none => []
      if children.isEmpty then some (.ok ([], []))
      else splitChildren recurse toks children
    else
      match fetchRegionClimbs (env.areasResp toks) pf with
      | none => none
      | some (.raised, _) => some (.error ())
      | some (.ok cl _, _) => some (.ok (cl, [toks]))
      | some (.tooLarge e, _) =>
        if e = .status 502 || e = .status 504 then
          splitOnError recurse env toks uuid
        else some (.ok ([], [toks]))

/-- `fetch_region`, by fuel on the recursion depth (`pf` is the page fuel
handed to every pagination loop in the subtree). -/
def fetchRegionFuel (env : Env) (pf : Nat) : Nat → List String → Option String → Option RegionRes
  | 0, _, _ => none
  | f+1, toks, uuid => fetchRegionStep (fetchRegionFuel env pf f) env pf toks uuid

/-- `filter_climbs`' keep predicate:
`c.get("pathTokens") and c["pathTokens"][0] in regions`. -/
def climbKeep (regions : List String) (c : Climb) : Bool :=
  match c.pathTokens with
  | [] => false
  | h :: _ => decide (h ∈ regions)

/-- `filter_climbs`: an empty configured region list keeps everything. -/
def filterClimbs (climbs : List Climb) (regions : List String) : List Climb :=
  if regions.isEmpty then climbs
  else climbs.filter (climbKeep regions)

/-- Response to the `COUNTRIES_QUERY` post at the top of
`fetch_all_climbs`; the payload pairs are `(areaName, uuid)`. -/
inductive ListingResp where
  | exn
  | http (status : Nat) (errs : Bool) (countries : List (String × String))
  deriving DecidableEq, Repr

/-- The `for country in countries` loop of `fetch_all_climbs`: each
country's `fetch_region` result is appended; a propagated exception (or
exhausted fuel) aborts the whole aggregation. -/
def fetchCountries (env : Env) (rf pf : Nat) : List (String × String) → Option (Except Unit (List Climb))
  | [] => some (.ok [])
  | (n, u) :: rest =>
    match fetchRegionFuel env pf rf [n] (some u) with
    | none => none
    | some (.error e) => some (.error e)
    | some (.ok (cl, _)) =>
      match fetchCountries env rf pf rest with
      | none => none
      | some (.error e) => some (.error e)
      | some (.ok cl2) => some (.ok (cl ++ cl2))

/-- `fetch_all_climbs`: a failed top-level listing (exception, non-200
status, or GraphQL errors) raises; otherwise countries are processed in
listing order. -/
def fetchAllClimbs (lr : ListingResp) (env : Env) (rf pf : Nat) : Option (Except Unit (List Climb)) :=
  match lr with
  | .exn => some (.error ())
  | .http s errs countries =>
    if s ≠ 200 then some (.error ())
    else if errs then some (.error ())
    else fetchCountries env rf pf countries

/-- Observable outcome of one run of `main`: the process exit code, the
warning lines printed by `main` itself, whether a traceback was printed,
and whether the export step (output file + stats artifact) ran. -/
structure RunOutcome where
  exitCode : Nat
  warnings : List String
  trace : Bool
  wroteOutput : Bool
  deriving DecidableEq, Repr

/-- `main`: an exception anywhere in the pipeline prints a traceback and
exits `1`; an empty climb list before or after filtering prints a warning
(no traceback, `sys.exit(1)` escapes the `except Exception` handler) and
exits `1` without writing any output artifact. -/
def mainRun (lr : ListingResp) (env : Env) (regions : List String) (rf pf : Nat) : Option RunOutcome :=
  match fetchAllClimbs lr env rf pf with
  | none => none
  | some (.error _) => some ⟨1, [], true, false⟩
  | some (.ok climbs) =>
    if climbs.isEmpty then some ⟨1, ["WARNING: " ++ "No climbs found!"], false, false⟩
    else
      let filtered := filterClimbs climbs regions
      if filtered.isEmpty then
        some ⟨1, ["WARNING: " ++ "No climbs remained after filtering!"], false, false⟩
      else some ⟨0, [], false, true⟩

/-! ### Generic lemmas about the pagination loop -/

/-- A server holding `server` as its leaf-area list and answering every
`AREAS_QUERY` request with the standard `limit`/`offset` slice. -/
def sliceT (server : List Area) : Nat → Resp :=
  fun off => .http 200 false ((server.drop off).take AREAS_PAGE_SIZE)

theorem flattenEnrich_append (l1 l2 : List Area) :
    flattenEnrich (l1 ++ l2) = flattenEnrich l1 ++ flattenEnrich l2 := by
  induction l1 with
  | nil => simp [flattenEnrich]
  | cons a rest ih => simp [flattenEnrich, ih]

theorem fetchPagesAux_slice (server : List Area) :
    ∀ fuel off acc, off ≤ server.length → server.length < off + AREAS_PAGE_SIZE * fuel →
    fetchPagesAux (sliceT server) fuel off acc
      = some (.ok (acc ++ flattenEnrich (server.drop off)) false,
              (List.range ((server.length - off) / AREAS_PAGE_SIZE + 1)).map
                (fun k => off + AREAS_PAGE_SIZE * k)) := by
  intro fuel
  induction fuel with
  | zero =>
    intro off acc h1 h2
    simp [AREAS_PAGE_SIZE] at h2
    omega
  | succ f ih =>
    intro off acc h1 h2
    have hpagelen : ((server.drop off).take AREAS_PAGE_SIZE).length
        = min AREAS_PAGE_SIZE (server.length - off) := by
      simp [List.length_take, List.length_drop]
    by_cases hshort : server.length - off < AREAS_PAGE_SIZE
    · have hpage : (server.drop off).take AREAS_PAGE_SIZE = server.drop off := by
        apply List.take_of_length_le
        simp [List.length_drop]
        omega
      have hdiv : (server.length - off) / AREAS_PAGE_SIZE = 0 := Nat.div_eq_of_lt hshort
      simp only [fetchPagesAux, sliceT]
      rw [if_neg (by simp), if_neg (by simp), if_pos (by rw [hpagelen]; omega)]
      rw [hpage, hdiv]
      rw [show List.range 1 = [0] from rfl]
      simp
    · push_neg at hshort
      have hfull : ¬ ((server.drop off).take AREAS_PAGE_SIZE).length < AREAS_PAGE_SIZE := by
        rw [hpagelen]; omega
      have hrec := ih (off + AREAS_PAGE_SIZE) (acc ++ flattenEnrich ((server.drop off).take AREAS_PAGE_SIZE))
        (by omega) (by have := h2; simp [Nat.mul_succ] at this ⊢; omega)
      simp only [fetchPagesAux, sliceT]
      rw [if_neg (by simp), if_neg (by simp), if_neg hfull]
      simp only [sliceT] at hrec
      rw [hrec]
      have hjoin : acc ++ flattenEnrich ((server.drop off).take AREAS_PAGE_SIZE)
            ++ flattenEnrich (server.drop (off + AREAS_PAGE_SIZE))
          = acc ++ flattenEnrich (server.drop off) := by
        rw [List.append_assoc, ← flattenEnrich_append, List.drop_take_append_drop]
      rw [hjoin]
      have hdiv : (server.length - off) / AREAS_PAGE_SIZE
          = (server.length - (off + AREAS_PAGE_SIZE)) / AREAS_PAGE_SIZE + 1 := by
        have hm : server.length - off = (server.length - (off + AREAS_PAGE_SIZE)) + AREAS_PAGE_SIZE := by
          omega
        rw [hm, Nat.add_div_right _ (by simp [AREAS_PAGE_SIZE])]
      rw [hdiv]
      have hlog : (List.range ((server.length - (off + AREAS_PAGE_SIZE)) / AREAS_PAGE_SIZE + 1 + 1)).map
            (fun k => off + AREAS_PAGE_SIZE * k)
          = off :: (List.range ((server.length - (off + AREAS_PAGE_SIZE)) / AREAS_PAGE_SIZE + 1)).map
            (fun k => off + AREAS_PAGE_SIZE + AREAS_PAGE_SIZE * k) := by
        rw [List.range_succ_eq_map, List.map_cons, List.map_map]
        have hf : ((fun k => off + AREAS_PAGE_SIZE * k) ∘ Nat.succ)
            = fun k => off + AREAS_PAGE_SIZE + AREAS_PAGE_SIZE * k := by
          funext k
          simp [Function.comp, Nat.mul_succ]
          ring
        rw [hf]
        simp
      rw [hlog]

/-! ### Claim C4: pagination -/

/-- A climb of the Fakistan scenario: it carries its own tokens and
coordinates, so enrichment leaves it unchanged. -/
def fakClimb (n : String) : Climb :=
  ⟨n, n, ["Fakistan"], ⟨some 1, some 2⟩⟩

/-- A leaf area of the Fakistan scenario holding a single climb. -/
def fakArea (n : String) (c : Climb) : Area :=
  ⟨n, n, ["Fakistan"], ⟨some 1, some 2⟩, [c]⟩

/-- The Fakistan scenario server: one page of 2 areas with 1 climb each. -/
def fakServer : List Area :=
  [fakArea "a1" (fakClimb "c1"), fakArea "a2" (fakClimb "c2")]

/-- Claim C4: against a server that answers every request with the
standard `limit`/`offset` slice of its leaf-area list, the pagination loop
requests offsets `0, 500, 1000, ...` (one request per started page of 500,
stopping exactly at the first page with fewer than 500 areas) and returns
the concatenation, in offset order, of the enriched climbs of all fetched
pages; in particular the Fakistan scenario (first page holds 2 areas with
1 climb each) terminates after the first request and returns 2 climbs. -/
theorem claim4_pagination (server : List Area) (fuel : Nat)
    (h : server.length < AREAS_PAGE_SIZE * fuel) :
    fetchRegionClimbs (sliceT server) fuel
      = some (.ok (flattenEnrich server) false,
              (List.range (server.length / AREAS_PAGE_SIZE + 1)).map
                (fun k => AREAS_PAGE_SIZE * k))
    ∧ fetchRegionClimbs (sliceT fakServer) 1
      = some (.ok [fakClimb "c1", fakClimb "c2"] false, [0]) := by
  constructor
  · have hs := fetchPagesAux_slice server fuel 0 [] (Nat.zero_le _) (by omega)
    simpa [fetchRegionClimbs] using hs
  · decide

/-- Witness for C4: the general pagination theorem applied to the concrete
Fakistan server with fuel 1. -/
theorem claim4_pagination_witness :
    fetchRegionClimbs (sliceT fakServer) 1
      = some (.ok (flattenEnrich fakServer) false,
              (List.range (fakServer.length / AREAS_PAGE_SIZE + 1)).map
                (fun k => AREAS_PAGE_SIZE * k)) :=
  (claim4_pagination fakServer 1 (by decide)).1

/-! ### Claim C7: later-page failure yields a partial result -/

/-- The page-request failures the pagination loop handles without
raising: a timeout, any non-200 status, or a body with GraphQL errors. -/
def pageFail : Resp → Bool
  | .timeout => true
  | .exn => false
  | .http s errs _ => s != 200 || errs

/-- The first `k` pages served by the page function `A`, in offset
order. -/
def pagesJoin (A : Nat → List Area) : Nat → List Area
  | 0 => []
  | k+1 => pagesJoin A k ++ A k

theorem pagesJoin_shift (A : Nat → List Area) :
    ∀ k, pagesJoin A (k+1) = A 0 ++ pagesJoin (fun j => A (j+1)) k := by
  intro k
  induction k with
  | zero => simp [pagesJoin]
  | succ n ih =>
    show pagesJoin A (n+1) ++ A (n+1) = A 0 ++ (pagesJoin (fun j => A (j+1)) n ++ A (n+1))
    rw [ih, List.append_assoc]

theorem fetchPagesAux_truncated (t : Nat → Resp) :
    ∀ k fuel off acc (A : Nat → List Area),
    (∀ j, j < k → t (off + AREAS_PAGE_SIZE * j) = .http 200 false (A j)
        ∧ (A j).length = AREAS_PAGE_SIZE) →
    pageFail (t (off + AREAS_PAGE_SIZE * k)) = true →
    0 < off + k → k < fuel →
    fetchPagesAux t fuel off acc
      = some (.ok (acc ++ flattenEnrich (pagesJoin A k)) true,
              (List.range (k+1)).map (fun j => off + AREAS_PAGE_SIZE * j)) := by
  intro k
  induction k with
  | zero =>
    intro fuel off acc A _ hfail hpos hfuel
    obtain ⟨f, rfl⟩ : ∃ f, fuel = f + 1 := ⟨fuel - 1, by omega⟩
    have hoff : ¬ off = 0 := by omega
    simp only [Nat.mul_zero, Nat.add_zero] at hfail
    rw [show List.range 1 = [0] from rfl]
    cases ht : t off with
    | timeout =>
      simp only [fetchPagesAux, ht, if_neg hoff]
      simp [pagesJoin, flattenEnrich]
    | exn => rw [ht] at hfail; simp [pageFail] at hfail
    | http s errs areas =>
      rw [ht] at hfail
      simp only [pageFail, Bool.or_eq_true, bne_iff_ne, ne_eq] at hfail
      rcases hfail with hs | herrs
      · simp only [fetchPagesAux, ht]
        rw [if_pos hs, if_neg hoff]
        simp [pagesJoin, flattenEnrich]
      · simp only [fetchPagesAux, ht]
        by_cases hs : s ≠ 200
        · rw [if_pos hs, if_neg hoff]
          simp [pagesJoin, flattenEnrich]
        · rw [if_neg hs, if_pos herrs, if_neg hoff]
          simp [pagesJoin, flattenEnrich]
  | succ n ih =>
    intro fuel off acc A hfull hfail hpos hfuel
    obtain ⟨f, rfl⟩ : ∃ f, fuel = f + 1 := ⟨fuel - 1, by omega⟩
    obtain ⟨ht0, hlen0⟩ := hfull 0 (by omega)
    simp only [Nat.mul_zero, Nat.add_zero] at ht0
    have hnotshort : ¬ (A 0).length < AREAS_PAGE_SIZE := by omega
    have hrec := ih f (off + AREAS_PAGE_SIZE) (acc ++ flattenEnrich (A 0)) (fun j => A (j+1))
      (by
        intro j hj
        have := hfull (j+1) (by omega)
        have harg : off + AREAS_PAGE_SIZE + AREAS_PAGE_SIZE * j
            = off + AREAS_PAGE_SIZE * (j+1) := by ring
        rw [harg]
        exact this)
      (by
        have harg : off + AREAS_PAGE_SIZE + AREAS_PAGE_SIZE * n
            = off + AREAS_PAGE_SIZE * (n+1) := by ring
        rw [harg]
        exact hfail)
      (by have h500 : AREAS_PAGE_SIZE = 500 := rfl; omega) (by omega)
    simp only [fetchPagesAux, ht0]
    rw [if_neg (by simp), if_neg (by simp), if_neg hnotshort]
    rw [hrec]
    have hjoin : acc ++ flattenEnrich (A 0) ++ flattenEnrich (pagesJoin (fun j => A (j+1)) n)
        = acc ++ flattenEnrich (pagesJoin A (n+1)) := by
      rw [pagesJoin_shift, flattenEnrich_append, List.append_assoc]
    rw [hjoin]
    have hlog : (List.range (n+1+1)).map (fun j => off + AREAS_PAGE_SIZE * j)
        = off :: (List.range (n+1)).map (fun j => off + AREAS_PAGE_SIZE + AREAS_PAGE_SIZE * j) := by
      rw [List.range_succ_eq_map, List.map_cons, List.map_map]
      have hf : ((fun j => off + AREAS_PAGE_SIZE * j) ∘ Nat.succ)
          = fun j => off + AREAS_PAGE_SIZE + AREAS_PAGE_SIZE * j := by
        funext j
        simp [Function.comp, Nat.mul_succ]
        ring
      rw [hf]
      simp
    rw [hlog]

/-- Claim C7: when the first page of a region succeeds (and every page
before the failing one is a full page of 500 areas served by `A`) and the
request at offset `500*k` (`k ≥ 1`) fails with a timeout, a non-200
status, or a GraphQL error, `fetch_region_climbs` returns exactly the
enriched climbs of the `k` earlier pages, flags the printed warning,
reports no error to its caller (the error component is `None`), and does
not raise. -/
theorem claim7_later_page_failure (t : Nat → Resp) (A : Nat → List Area) (k fuel : Nat)
    (hfull : ∀ j, j < k → t (AREAS_PAGE_SIZE * j) = .http 200 false (A j)
        ∧ (A j).length = AREAS_PAGE_SIZE)
    (hfail : pageFail (t (AREAS_PAGE_SIZE * k)) = true)
    (hk : 1 ≤ k) (hfuel : k < fuel) :
    fetchRegionClimbs t fuel
      = some (.ok (flattenEnrich (pagesJoin A k)) true,
              (List.range (k+1)).map (fun j => AREAS_PAGE_SIZE * j)) := by
  have h := fetchPagesAux_truncated t k fuel 0 [] A (by simpa using hfull)
    (by simpa using hfail) (by omega) hfuel
  simpa [fetchRegionClimbs] using h

/-- A full page of 500 identical single-climb areas, used by the C7
witness. -/
def fullPage : List Area := List.replicate AREAS_PAGE_SIZE (fakArea "a1" (fakClimb "c1"))

/-- Witness transport for C7: the first page is full and succeeds, every
later request times out (the scenario's 503 equivalent). -/
def failAfterOneT : Nat → Resp :=
  fun off => if off = 0 then .http 200 false fullPage else .http 503 false []

/-- Witness for C7: one full page then a 503 at offset 500 gives back the
first page's climbs with the warning flag and no error. -/
theorem claim7_later_page_failure_witness :
    fetchRegionClimbs failAfterOneT 2
      = some (.ok (flattenEnrich (pagesJoin (fun _ => fullPage) 1)) true,
              (List.range 2).map (fun j => AREAS_PAGE_SIZE * j)) :=
  claim7_later_page_failure failAfterOneT (fun _ => fullPage) 1 2
    (by
      intro j hj
      have hj0 : j = 0 := by omega
      subst hj0
      exact ⟨rfl, by simp [fullPage]⟩)
    rfl (by omega) (by omega)

/-! ### Claim C2: retry policy -/

theorem fetchPagesAux_log_bounds (t : Nat → Resp) :
    ∀ fuel off acc out lg, fetchPagesAux t fuel off acc = some (out, lg) →
    (∀ e ∈ lg, off ≤ e) ∧ lg.Nodup := by
  intro fuel
  induction fuel with
  | zero =>
    intro off acc out lg h
    simp [fetchPagesAux] at h
  | succ f ih =>
    intro off acc out lg h
    have h500 : 0 < AREAS_PAGE_SIZE := by decide
    have hterm : ∀ X : Outcome, some (X, [off]) = some (out, lg) →
        (∀ e ∈ lg, off ≤ e) ∧ lg.Nodup := by
      intro X hx
      simp only [Option.some.injEq, Prod.mk.injEq] at hx
      rcases hx with ⟨-, rfl⟩
      simp
    cases ht : t off with
    | timeout =>
      simp only [fetchPagesAux, ht] at h
      split at h
      · exact hterm _ h
      · exact hterm _ h
    | exn =>
      simp only [fetchPagesAux, ht] at h
      exact hterm _ h
    | http s errs areas =>
      simp only [fetchPagesAux, ht] at h
      split at h
      · split at h
        · exact hterm _ h
        · exact hterm _ h
      · split at h
        · split at h
          · exact hterm _ h
          · exact hterm _ h
        · split at h
          · exact hterm _ h
          · cases hrec : fetchPagesAux t f (off + AREAS_PAGE_SIZE) (acc ++ flattenEnrich areas) with
            | none => rw [hrec] at h; simp at h
            | some p =>
              obtain ⟨out', lg'⟩ := p
              rw [hrec] at h
              simp only [Option.some.injEq, Prod.mk.injEq] at h
              rcases h with ⟨rfl, rfl⟩
              obtain ⟨hge, hnd⟩ := ih (off + AREAS_PAGE_SIZE) (acc ++ flattenEnrich areas) out' lg' hrec
              refine ⟨?_, ?_⟩
              · intro e he
                rcases List.mem_cons.mp he with rfl | he'
                · exact Nat.le_refl _
                · have := hge e he'
                  omega
              · refine List.nodup_cons.mpr ⟨?_, hnd⟩
                intro hmem
                have := hge off hmem
                omega

/-- Claim C2, amended: the pagination loop never retries a page — every
offset is requested at most once in a call to `fetch_region_climbs`, so a
transiently failing page is given up after a single attempt and there is
no backoff. -/
theorem claim2_single_attempt (t : Nat → Resp) (fuel o : Nat) (out : Outcome) (lg : List Nat)
    (h : fetchRegionClimbs t fuel = some (out, lg)) :
    lg.count o ≤ 1 := by
  have hb := fetchPagesAux_log_bounds t fuel 0 [] out lg h
  exact List.nodup_iff_count_le_one.mp hb.2 o

/-- A transport whose every response is an HTTP 503. -/
def always503T : Nat → Resp := fun _ => .http 503 false []

/-- Counterexample to C2 as stated: with fuel for four requests available
and the first page failing transiently with a 503, the fetcher gives up
after a single request at offset 0 (the request log is `[0]`), not after
three attempts. -/
theorem claim2_counterexample :
    fetchRegionClimbs always503T 4 = some (.tooLarge (.status 503), [0])
      ∧ List.count 0 [0] = 1 := by
  decide

/-- Witness for the amended C2: the single 503 attempt at offset 0. -/
theorem claim2_single_attempt_witness :
    List.count 0 [0] ≤ 1 :=
  claim2_single_attempt always503T 4 0 (.tooLarge (.status 503)) [0] (by decide)

/-! ### Claim C5: enrichment keyed on Python truthiness -/

/-- Claim C5, amended: a climb with an empty token list receives the
area's tokens and otherwise keeps its own; a climb whose latitude is
falsy (`None` or `0`) receives both of the area's coordinates exactly when
the area's latitude is truthy; when the climb's latitude is truthy, or the
area's is falsy, the climb's metadata is unchanged.  Identity fields are
never touched. -/
theorem claim5_enrichment (a : Area) (c : Climb) :
    (enrichClimb a c).pathTokens
      = (if c.pathTokens.isEmpty then a.pathTokens else c.pathTokens)
    ∧ (truthyCoord c.metadata.lat = false → truthyCoord a.metadata.lat = true →
        (enrichClimb a c).metadata = ⟨a.metadata.lat, a.metadata.lng⟩)
    ∧ (truthyCoord c.metadata.lat = true → (enrichClimb a c).metadata = c.metadata)
    ∧ (truthyCoord a.metadata.lat = false → (enrichClimb a c).metadata = c.metadata)
    ∧ (enrichClimb a c).uuid = c.uuid ∧ (enrichClimb a c).name = c.name := by
  refine ⟨?_, ?_, ?_, ?_, ?_, ?_⟩ <;>
    (try intro hclat) <;> (try intro halat) <;>
    by_cases h1 : c.pathTokens.isEmpty <;>
    by_cases h2 : truthyCoord c.metadata.lat <;>
    by_cases h3 : truthyCoord a.metadata.lat <;>
    simp_all [enrichClimb]

/-- A climb that sits on the equator: its latitude `0` is a real
coordinate but is Python-falsy. -/
def zeroLatClimb : Climb := ⟨"c0", "c0", ["K"], ⟨some 0, some 10⟩⟩

/-- The area containing `zeroLatClimb`, with its own coordinates. -/
def coordArea : Area := ⟨"a0", "a0", ["K"], ⟨some 5, some 6⟩, [zeroLatClimb]⟩

/-- Counterexample to C5 as stated: `zeroLatClimb` carries its own
coordinates (latitude 0, longitude 10) at source, yet enrichment replaces
both with the area's values, so a climb that already carries coordinates
does not keep them unchanged. -/
theorem claim5_counterexample :
    zeroLatClimb.metadata = ⟨some 0, some 10⟩
    ∧ (enrichClimb coordArea zeroLatClimb).metadata = ⟨some 5, some 6⟩ := by
  decide

/-- Witness for the amended C5 at the concrete equator climb. -/
theorem claim5_enrichment_witness :
    (enrichClimb coordArea zeroLatClimb).metadata
      = ⟨coordArea.metadata.lat, coordArea.metadata.lng⟩ :=
  (claim5_enrichment coordArea zeroLatClimb).2.1 rfl rfl

/-! ### Claims C8 and C10: the region filter -/

/-- Intersection of two configured region lists, keeping `s1`'s order. -/
def regionInter (s1 s2 : List String) : List String :=
  s1.filter (fun r => decide (r ∈ s2))

theorem climbKeep_inter (s1 s2 : List String) (c : Climb) :
    climbKeep (regionInter s1 s2) c = (climbKeep s1 c && climbKeep s2 c) := by
  unfold climbKeep regionInter
  cases c.pathTokens with
  | nil => simp
  | cons h rest => simp [List.mem_filter, Bool.decide_and]

/-- Claim C8, amended: the filter is idempotent, and filtering by `S1`
then `S2` equals filtering by their intersection provided the intersection
is non-empty (an empty configured region list means "keep all", so an
empty intersection degenerates to the identity filter). -/
theorem claim8_filter_laws :
    (∀ (climbs : List Climb) (S : List String),
      filterClimbs (filterClimbs climbs S) S = filterClimbs climbs S)
    ∧ (∀ (climbs : List Climb) (S1 S2 : List String), regionInter S1 S2 ≠ [] →
      filterClimbs (filterClimbs climbs S1) S2 = filterClimbs climbs (regionInter S1 S2)) := by
  constructor
  · intro climbs S
    by_cases hS : S.isEmpty
    · simp [filterClimbs, hS]
    · unfold filterClimbs
      rw [if_neg hS, if_neg hS, List.filter_filter]
      apply List.filter_congr
      intro c _
      exact Bool.and_self _
  · intro climbs S1 S2 hne
    have hmem : ∃ r, r ∈ S1 ∧ r ∈ S2 := by
      rcases List.exists_mem_of_ne_nil _ hne with ⟨r, hr⟩
      have := List.mem_filter.mp hr
      exact ⟨r, this.1, by simpa using this.2⟩
    rcases hmem with ⟨r, hr1, hr2⟩
    have h1 : ¬ S1.isEmpty := by
      cases S1 with
      | nil => cases hr1
      | cons a l => simp
    have h2 : ¬ S2.isEmpty := by
      cases S2 with
      | nil => cases hr2
      | cons a l => simp
    have hi : ¬ (regionInter S1 S2).isEmpty := by
      rw [List.isEmpty_iff]
      exact hne
    unfold filterClimbs
    rw [if_neg h1, if_neg h2, if_neg hi, List.filter_filter]
    apply List.filter_congr
    intro c _
    rw [climbKeep_inter, Bool.and_comm]

/-- A climb whose first path token is `"A"`. -/
def tokClimb : Climb := ⟨"t", "t", ["A"], ⟨some 1, some 1⟩⟩

/-- Counterexample to C8 as stated: filtering `[tokClimb]` by `["A"]`
then `["B"]` drops everything, while one filter by the (empty)
intersection keeps everything, because an empty region list disables the
filter. -/
theorem claim8_counterexample :
    filterClimbs (filterClimbs [tokClimb] ["A"]) ["B"] = []
    ∧ regionInter ["A"] ["B"] = []
    ∧ filterClimbs [tokClimb] (regionInter ["A"] ["B"]) = [tokClimb] := by
  decide

/-- Witness for the amended C8: both laws at concrete inputs with a
non-empty intersection. -/
theorem claim8_filter_laws_witness :
    filterClimbs (filterClimbs [tokClimb] ["A"]) ["A"] = filterClimbs [tokClimb] ["A"]
    ∧ filterClimbs (filterClimbs [tokClimb] ["A"]) ["A", "B"]
      = filterClimbs [tokClimb] (regionInter ["A"] ["A", "B"]) :=
  ⟨claim8_filter_laws.1 [tokClimb] ["A"],
   claim8_filter_laws.2 [tokClimb] ["A"] ["A", "B"] (by decide)⟩

/-- Claim C10: when the configured region list is non-empty, every climb
with an empty (or missing) token list is excluded from the filtered
result, even though the same climb survives an unfiltered export. -/
theorem claim10_tokenless_dropped (climbs : List Climb) (regions : List String) (c : Climb)
    (hr : ¬ regions.isEmpty) (hc : c.pathTokens = []) :
    c ∉ filterClimbs climbs regions
    ∧ (c ∈ climbs → c ∈ filterClimbs climbs []) := by
  constructor
  · intro hmem
    unfold filterClimbs at hmem
    rw [if_neg hr] at hmem
    have hk := (List.mem_filter.mp hmem).2
    rw [climbKeep, hc] at hk
    cases hk
  · intro h
    simpa [filterClimbs] using h

/-- A climb with no path tokens at all. -/
def noTokClimb : Climb := ⟨"n", "n", [], ⟨none, none⟩⟩

/-- Witness for C10: the token-less climb is dropped by a filtered export
and kept by an unfiltered one. -/
theorem claim10_tokenless_dropped_witness :
    noTokClimb ∉ filterClimbs [noTokClimb] ["A"]
    ∧ (noTokClimb ∈ [noTokClimb] → noTokClimb ∈ filterClimbs [noTokClimb] []) :=
  claim10_tokenless_dropped [noTokClimb] ["A"] noTokClimb (by decide) rfl

/-! ### Structural lemmas about the splitter -/

theorem fetchPagesAux_no_raise (t : Nat → Resp) (hnx : ∀ o, t o ≠ .exn) :
    ∀ fuel off acc lg, fetchPagesAux t fuel off acc ≠ some (.raised, lg) := by
  intro fuel
  induction fuel with
  | zero =>
    intro off acc lg h
    simp [fetchPagesAux] at h
  | succ f ih =>
    intro off acc lg h
    cases ht : t off with
    | timeout =>
      simp only [fetchPagesAux, ht] at h
      split at h <;> simp at h
    | exn => exact hnx off ht
    | http s errs areas =>
      simp only [fetchPagesAux, ht] at h
      split at h
      · split at h <;> simp at h
      · split at h
        · split at h <;> simp at h
        · split at h
          · simp at h
          · cases hrec : fetchPagesAux t f (off + AREAS_PAGE_SIZE) (acc ++ flattenEnrich areas) with
            | none => rw [hrec] at h; simp at h
            | some p =>
              obtain ⟨out', lg'⟩ := p
              rw [hrec] at h
              simp only [Option.some.injEq, Prod.mk.injEq] at h
              exact ih (off + AREAS_PAGE_SIZE) (acc ++ flattenEnrich areas) lg' (h.1 ▸ hrec)

/-- The areas transport never answers with an uncaught exception (the
only failures are timeouts, HTTP statuses and GraphQL errors — exactly
the ones `fetch_region_climbs` knows how to absorb). -/
def NoExn (env : Env) : Prop :=
  ∀ toks off, env.areasResp toks off ≠ .exn

theorem splitChildren_no_raise (recurse : List String → Option String → Option RegionRes)
    (toks : List String)
    (hrec : ∀ toks2 uuid2, toks2 ≠ [] → recurse toks2 uuid2 ≠ some (.error ())) :
    ∀ cs, splitChildren recurse toks cs ≠ some (.error ()) := by
  intro cs
  induction cs with
  | nil => simp [splitChildren]
  | cons c rest ih =>
    intro h
    simp only [splitChildren] at h
    cases h1 : recurse (toks ++ [c]) none with
    | none => rw [h1] at h; simp at h
    | some r =>
      cases r with
      | error e => exact hrec (toks ++ [c]) none (by simp) (by rw [h1])
      | ok p =>
        obtain ⟨cl, lg⟩ := p
        rw [h1] at h
        cases h2 : splitChildren recurse toks rest with
        | none => rw [h2] at h; simp at h
        | some r2 =>
          cases r2 with
          | error e2 => exact ih (by rw [h2])
          | ok p2 =>
            obtain ⟨cl2, lg2⟩ := p2
            rw [h2] at h
            simp at h

theorem fetchRegionFuel_no_raise (env : Env) (pf : Nat) (hnx : NoExn env) :
    ∀ f toks uuid, toks ≠ [] → fetchRegionFuel env pf f toks uuid ≠ some (.error ()) := by
  intro f
  induction f with
  | zero =>
    intro toks uuid _ h
    simp [fetchRegionFuel] at h
  | succ f ih =>
    intro toks uuid hne h
    cases toks with
    | nil => exact hne rfl
    | cons t ts =>
      simp only [fetchRegionFuel, fetchRegionStep] at h
      split at h
      · split at h
        · simp at h
        · exact splitChildren_no_raise _ _ ih _ h
      · cases hfc : fetchRegionClimbs (env.areasResp (t :: ts)) pf with
        | none => rw [hfc] at h; simp at h
        | some p =>
          obtain ⟨out, lg⟩ := p
          rw [hfc] at h
          split at h
          · simp at h
          · rename_i snd heq
            simp only [Option.some.injEq, Prod.mk.injEq] at heq
            simp only [fetchRegionClimbs] at hfc
            exact fetchPagesAux_no_raise _ (fun o => hnx (t :: ts) o) pf 0 [] snd
              (by rw [hfc, heq.1, heq.2])
          · simp at h
          · split at h
            · simp only [splitOnError] at h
              split at h
              · simp at h
              · cases hsc : splitChildren (fetchRegionFuel env pf f) (t :: ts) _ with
                | none => rw [hsc] at h; simp at h
                | some r =>
                  cases r with
                  | error e2 =>
                    exact splitChildren_no_raise _ _ ih _ hsc
                  | ok p2 =>
                    obtain ⟨cl2, lg2⟩ := p2
                    rw [hsc] at h
                    simp at h
            · simp at h

theorem splitChildren_log_len (recurse : List String → Option String → Option RegionRes)
    (hrec : ∀ toks2 uuid2 cl2 lg2, recurse toks2 uuid2 = some (.ok (cl2, lg2)) →
      ∀ e ∈ lg2, toks2.length ≤ e.length) :
    ∀ (toks : List String) cs cl lg, splitChildren recurse toks cs = some (.ok (cl, lg)) →
      ∀ e ∈ lg, toks.length + 1 ≤ e.length := by
  intro toks cs
  induction cs with
  | nil =>
    intro cl lg h e he
    simp only [splitChildren, Option.some.injEq, Except.ok.injEq, Prod.mk.injEq] at h
    rcases h with ⟨-, rfl⟩
    cases he
  | cons c rest ih =>
    intro cl lg h e he
    simp only [splitChildren] at h
    cases h1 : recurse (toks ++ [c]) none with
    | none => rw [h1] at h; simp at h
    | some r =>
      cases r with
      | error e1 => rw [h1] at h; simp at h
      | ok p1 =>
        obtain ⟨cl1, lg1⟩ := p1
        rw [h1] at h
        cases h2 : splitChildren recurse toks rest with
        | none => rw [h2] at h; simp at h
        | some r2 =>
          cases r2 with
          | error e2 => rw [h2] at h; simp at h
          | ok p2 =>
            obtain ⟨cl2, lg2⟩ := p2
            rw [h2] at h
            simp only [Option.some.injEq, Except.ok.injEq, Prod.mk.injEq] at h
            rcases h with ⟨-, rfl⟩
            rcases List.mem_append.mp he with he1 | he2
            · have := hrec (toks ++ [c]) none cl1 lg1 h1 e he1
              simpa using this
            · exact ih cl2 lg2 h2 e he2

theorem fetchRegionFuel_log_len (env : Env) (pf : Nat) :
    ∀ f toks uuid cl lg, fetchRegionFuel env pf f toks uuid = some (.ok (cl, lg)) →
      ∀ e ∈ lg, toks.length ≤ e.length := by
  intro f
  induction f with
  | zero =>
    intro toks uuid cl lg h
    simp [fetchRegionFuel] at h
  | succ f ih =>
    intro toks uuid cl lg h
    cases toks with
    | nil => simp [fetchRegionFuel, fetchRegionStep] at h
    | cons t ts =>
      simp only [fetchRegionFuel, fetchRegionStep] at h
      split at h
      · split at h
        · simp only [Option.some.injEq, Except.ok.injEq, Prod.mk.injEq] at h
          rcases h with ⟨-, rfl⟩
          intro e he
          cases he
        · intro e he
          have := splitChildren_log_len (fetchRegionFuel env pf f) ih (t :: ts) _ cl lg h e he
          omega
      · cases hfc : fetchRegionClimbs (env.areasResp (t :: ts)) pf with
        | none => rw [hfc] at h; simp at h
        | some p =>
          obtain ⟨out, lg0⟩ := p
          rw [hfc] at h
          split at h
          · simp at h
          · simp at h
          · simp only [Option.some.injEq, Except.ok.injEq, Prod.mk.injEq] at h
            rcases h with ⟨-, rfl⟩
            intro e he
            rcases List.mem_singleton.mp he with rfl
            exact Nat.le_refl _
          · split at h
            · simp only [splitOnError] at h
              split at h
              · simp only [Option.some.injEq, Except.ok.injEq, Prod.mk.injEq] at h
                rcases h with ⟨-, rfl⟩
                intro e he
                rcases List.mem_singleton.mp he with rfl
                exact Nat.le_refl _
              · cases hsc : splitChildren (fetchRegionFuel env pf f) (t :: ts) _ with
                | none => rw [hsc] at h; simp at h
                | some r =>
                  cases r with
                  | error e2 => rw [hsc] at h; simp at h
                  | ok p2 =>
                    obtain ⟨cl2, lg2⟩ := p2
                    rw [hsc] at h
                    simp only [Option.some.injEq, Except.ok.injEq, Prod.mk.injEq] at h
                    rcases h with ⟨-, rfl⟩
                    intro e he
                    rcases List.mem_cons.mp he with rfl | he2
                    · exact Nat.le_refl _
                    · have := splitChildren_log_len (fetchRegionFuel env pf f) ih (t :: ts) _ cl2 lg2 hsc e he2
                      omega
            · simp only [Option.some.injEq, Except.ok.injEq, Prod.mk.injEq] at h
              rcases h with ⟨-, rfl⟩
              intro e he
              rcases List.mem_singleton.mp he with rfl
              exact Nat.le_refl _

/-! ### Claim C1: first-page transient failures and the split -/

/-- Claim C1, amended: a first-page timeout is reported to the splitter
as error 504 and any first-page 502/503/504 response as that status code
(the too-large signal); the splitter decomposes into children exactly for
502 and 504 (and the timeout it sees as 504), while a first-page 503 is
recorded as a failed region with zero climbs and no decomposition. -/
theorem claim1_first_page_transient (env : Env) (pf f : Nat) (t : String) (ts : List String)
    (uuid : Option String)
    (hskip : (LARGE_REGIONS.contains ((t :: ts).getLast (List.cons_ne_nil t ts))
        && truthyOptStr uuid) = false) :
    (env.areasResp (t :: ts) 0 = .timeout →
      fetchRegionClimbs (env.areasResp (t :: ts)) (pf+1)
        = some (.tooLarge (.status 504), [0]))
    ∧ (∀ c errs areas, env.areasResp (t :: ts) 0 = .http c errs areas →
        c = 502 ∨ c = 503 ∨ c = 504 →
        fetchRegionClimbs (env.areasResp (t :: ts)) (pf+1)
          = some (.tooLarge (.status c), [0]))
    ∧ (∀ e lg, fetchRegionClimbs (env.areasResp (t :: ts)) pf = some (.tooLarge e, lg) →
        e = .status 502 ∨ e = .status 504 →
        fetchRegionFuel env pf (f+1) (t :: ts) uuid
          = splitOnError (fetchRegionFuel env pf f) env (t :: ts) uuid)
    ∧ (∀ lg, fetchRegionClimbs (env.areasResp (t :: ts)) pf
          = some (.tooLarge (.status 503), lg) →
        fetchRegionFuel env pf (f+1) (t :: ts) uuid = some (.ok ([], [t :: ts]))) := by
  refine ⟨?_, ?_, ?_, ?_⟩
  · intro h
    simp [fetchRegionClimbs, fetchPagesAux, h]
  · intro c errs areas h hc
    rcases hc with rfl | rfl | rfl <;> simp [fetchRegionClimbs, fetchPagesAux, h]
  · intro e lg herr hor
    simp only [fetchRegionFuel, fetchRegionStep]
    rw [if_neg (by rw [hskip]; exact Bool.false_ne_true)]
    simp only [herr]
    rcases hor with rfl | rfl <;> simp
  · intro lg herr
    simp only [fetchRegionFuel, fetchRegionStep]
    rw [if_neg (by rw [hskip]; exact Bool.false_ne_true)]
    simp only [herr]
    simp

/-- The climb living in the child region `["X", "Y"]`. -/
def childClimb : Climb := ⟨"cc", "cc", ["X", "Y"], ⟨some 1, some 1⟩⟩

/-- The single leaf area of the child region `["X", "Y"]`. -/
def childArea : Area := ⟨"ay", "Y", ["X", "Y"], ⟨some 1, some 1⟩, [childClimb]⟩

/-- Environment where the first page of region `["X"]` answers 503 while
its child `Y` is discoverable by path and fetches fine directly. -/
def env503 : Env :=
  ⟨fun toks _ => if toks = ["X"] then .http 503 false [] else .http 200 false [childArea],
   fun _ => .http 200 false [],
   fun toks => if toks = ["X"] then .http 200 false [["Y"]] else .http 200 false []⟩

/-- Counterexample to C1 as stated: a first-page 503 on `["X"]` is
recorded as a failed region with zero climbs (only `["X"]` itself was
queried, no recursion into children), even though the child `Y` is
discoverable and holds a climb that decomposition would have returned. -/
theorem claim1_counterexample :
    fetchRegionFuel env503 1 2 ["X"] none = some (.ok ([], [["X"]]))
    ∧ fetchChildrenByPath (env503.childPath ["X"]) = ["Y"]
    ∧ fetchRegionFuel env503 1 2 ["X", "Y"] none
      = some (.ok ([childClimb], [["X", "Y"]])) := by
  decide

/-- Environment identical to `env503` except the first page of `["X"]`
answers 504. -/
def env504 : Env :=
  ⟨fun toks _ => if toks = ["X"] then .http 504 false [] else .http 200 false [childArea],
   fun _ => .http 200 false [],
   fun toks => if toks = ["X"] then .http 200 false [["Y"]] else .http 200 false []⟩

/-- Witness for the amended C1: with a first-page 504 the splitter takes
the decomposition path. -/
theorem claim1_first_page_transient_witness :
    fetchRegionFuel env504 1 2 ["X"] none
      = splitOnError (fetchRegionFuel env504 1 1) env504 ["X"] none :=
  (claim1_first_page_transient env504 1 1 "X" [] none (by decide)).2.2.1
    (.status 504) [0] (by decide) (Or.inr rfl)

/-! ### Claim C6: the large-region allow-list -/

/-- Claim C6, amended: when a region's last token is in `LARGE_REGIONS`
*and* a truthy uuid is supplied, the splitter skips the direct fetch —
its result is the immediate decomposition over the children discovered by
uuid, and no leaf-area query is ever issued for the region's own token
path (every logged query is strictly deeper). -/
theorem claim6_large_region_skip (env : Env) (pf f : Nat) (t : String) (ts : List String)
    (u : String)
    (hlarge : LARGE_REGIONS.contains ((t :: ts).getLast (List.cons_ne_nil t ts)) = true)
    (hu : u ≠ "") :
    fetchRegionFuel env pf (f+1) (t :: ts) (some u)
      = (if (fetchChildrenByUuid (env.childUuid u)).isEmpty then some (.ok ([], []))
         else splitChildren (fetchRegionFuel env pf f) (t :: ts)
           (fetchChildrenByUuid (env.childUuid u)))
    ∧ (∀ cl lg, fetchRegionFuel env pf (f+1) (t :: ts) (some u) = some (.ok (cl, lg)) →
        (t :: ts) ∉ lg) := by
  have hcond : (LARGE_REGIONS.contains ((t :: ts).getLast (List.cons_ne_nil t ts))
      && truthyOptStr (some u)) = true := by
    rw [hlarge]
    simp [truthyOptStr, hu]
  have hbranch : fetchRegionFuel env pf (f+1) (t :: ts) (some u)
      = (if (fetchChildrenByUuid (env.childUuid u)).isEmpty then some (.ok ([], []))
         else splitChildren (fetchRegionFuel env pf f) (t :: ts)
           (fetchChildrenByUuid (env.childUuid u))) := by
    simp only [fetchRegionFuel, fetchRegionStep]
    rw [if_pos hcond]
  refine ⟨hbranch, ?_⟩
  intro cl lg hok hmem
  rw [hbranch] at hok
  split at hok
  · simp only [Option.some.injEq, Except.ok.injEq, Prod.mk.injEq] at hok
    rcases hok with ⟨-, rfl⟩
    cases hmem
  · have := splitChildren_log_len (fetchRegionFuel env pf f)
      (fetchRegionFuel_log_len env pf f) (t :: ts) _ cl lg hok (t :: ts) hmem
    omega

/-- A climb directly inside the `["USA"]` region. -/
def usaClimb : Climb := ⟨"uc", "uc", ["USA"], ⟨some 1, some 1⟩⟩

/-- The single leaf area the direct `["USA"]` query returns. -/
def usaArea : Area := ⟨"ua", "ua", ["USA"], ⟨some 1, some 1⟩, [usaClimb]⟩

/-- Environment where every leaf query succeeds with one short page and
child discovery finds nothing. -/
def envUSA : Env :=
  ⟨fun _ _ => .http 200 false [usaArea],
   fun _ => .http 200 false [],
   fun _ => .http 200 false []⟩

/-- Counterexample to C6 as stated: for the allow-listed region `["USA"]`
reached without a uuid, the splitter does issue the direct leaf-area
query (the request log contains `["USA"]`) instead of decomposing. -/
theorem claim6_counterexample :
    LARGE_REGIONS.contains "USA" = true
    ∧ fetchRegionFuel envUSA 1 1 ["USA"] none
      = some (.ok ([usaClimb], [["USA"]])) := by
  decide

/-- Witness for the amended C6: with a uuid, the allow-listed region is
decomposed immediately (here: no children, so zero climbs and an empty
request log — no leaf query at all). -/
theorem claim6_large_region_skip_witness :
    fetchRegionFuel envUSA 1 2 ["USA"] (some "u1") = some (.ok ([], [])) := by
  have h := (claim6_large_region_skip envUSA 1 1 "USA" [] "u1" (by decide) (by decide)).1
  rw [h]
  rfl

/-! ### Claims C3 and C9: run-level failure handling -/

/-- Claim C3, amended: when the areas transport only fails in the ways
`fetch_region_climbs` knows how to absorb (timeout, HTTP status, GraphQL
errors — never an unexpected exception), no region subtree and no country
aggregation ever propagates an exception, while a failed top-level listing
(exception, non-200, or GraphQL errors) always raises and the run then
aborts with a traceback and no output artifact.  (As stated the claim is
false: an unexpected exception inside one country's page request is not
absorbed, see the counterexample.) -/
theorem claim3_failure_boundaries (env : Env) (rf pf : Nat) (hnx : NoExn env) :
    (∀ f toks uuid, toks ≠ [] → fetchRegionFuel env pf f toks uuid ≠ some (.error ()))
    ∧ (∀ countries, fetchCountries env rf pf countries ≠ some (.error ()))
    ∧ (∀ s errs countries, s ≠ 200 ∨ errs = true →
        fetchAllClimbs (.http s errs countries) env rf pf = some (.error ()))
    ∧ fetchAllClimbs .exn env rf pf = some (.error ())
    ∧ (∀ lr regions, fetchAllClimbs lr env rf pf = some (.error ()) →
        mainRun lr env regions rf pf = some ⟨1, [], true, false⟩) := by
  have hreg := fetchRegionFuel_no_raise env pf hnx
  refine ⟨hreg, ?_, ?_, ?_, ?_⟩
  · intro countries
    induction countries with
    | nil => simp [fetchCountries]
    | cons p rest ih =>
      obtain ⟨n, u⟩ := p
      intro h
      simp only [fetchCountries] at h
      cases h1 : fetchRegionFuel env pf rf [n] (some u) with
      | none => rw [h1] at h; simp at h
      | some r =>
        cases r with
        | error e => exact hreg rf [n] (some u) (by simp) (by rw [h1])
        | ok pr =>
          obtain ⟨cl, lg⟩ := pr
          rw [h1] at h
          cases h2 : fetchCountries env rf pf rest with
          | none => rw [h2] at h; simp at h
          | some r2 =>
            cases r2 with
            | error e2 => exact ih (by rw [h2])
            | ok cl2 => rw [h2] at h; simp at h
  · intro s errs countries hfail
    rcases hfail with hs | herrs
    · simp [fetchAllClimbs, hs]
    · by_cases hs : s ≠ 200
      · simp [fetchAllClimbs, hs]
      · simp [fetchAllClimbs, hs, herrs]
  · simp [fetchAllClimbs]
  · intro lr regions h
    simp [mainRun, h]

/-- Environment whose every leaf-area request raises an unexpected
(non-timeout) exception, e.g. a connection error. -/
def envConnErr : Env :=
  ⟨fun _ _ => .exn,
   fun _ => .http 200 false [],
   fun _ => .http 200 false []⟩

/-- Counterexample to C3 as stated: the top-level listing succeeds with
one country, that country's first page request raises an unexpected
exception, and the exception is not absorbed at the fetcher/splitter
boundary — the whole run aborts with a traceback and no output. -/
theorem claim3_counterexample :
    fetchAllClimbs (.http 200 false [("X", "u1")]) envConnErr 1 1 = some (.error ())
    ∧ mainRun (.http 200 false [("X", "u1")]) envConnErr [] 1 1
      = some ⟨1, [], true, false⟩ := by
  decide

/-- Witness for the amended C3: a raised top-level listing aborts the
aggregation. -/
theorem claim3_failure_boundaries_witness :
    fetchAllClimbs .exn envUSA 1 1 = some (.error ()) :=
  (claim3_failure_boundaries envUSA 1 1 (by intro toks off; simp [envUSA])).2.2.2.1

/-- Claim C9: a run whose aggregation succeeds but yields an empty climb
list — either before filtering or after region filtering — exits with
code 1, prints the corresponding warning line (`"WARNING: "` followed by
`"No climbs found!"`, respectively the filtering warning) with no
traceback, and writes no output artifact. -/
theorem claim9_empty_is_fatal (lr : ListingResp) (env : Env) (regions : List String)
    (rf pf : Nat) (cl : List Climb)
    (h : fetchAllClimbs lr env rf pf = some (.ok cl)) :
    (cl = [] → mainRun lr env regions rf pf
        = some ⟨1, ["WARNING: " ++ "No climbs found!"], false, false⟩)
    ∧ (cl ≠ [] → filterClimbs cl regions = [] → mainRun lr env regions rf pf
        = some ⟨1, ["WARNING: " ++ "No climbs remained after filtering!"], false, false⟩) := by
  constructor
  · intro hcl
    subst hcl
    simp [mainRun, h]
  · intro hne hf
    simp only [mainRun, h]
    rw [if_neg (by simpa using hne)]
    simp [hf]

/-- Witness for C9: a listing with zero countries yields an empty climb
list, and the run fails with the warning, no traceback, and no output. -/
theorem claim9_empty_is_fatal_witness :
    mainRun (.http 200 false []) envUSA [] 1 1
      = some ⟨1, ["WARNING: " ++ "No climbs found!"], false, false⟩ :=
  (claim9_empty_is_fatal (.http 200 false []) envUSA [] 1 1 [] (by decide)).1 rfl

end OpenBetaExport
